import Mathlib

/-!
Shallow embedding of the KnowTon oracle-adapter valuation engine
(`src/packages/oracle-adapter/src/services/valuation_service.py`) and
verification of the frozen claims about it.

Numbers are modelled as elements of a linear ordered field (instantiated at
`ℚ` for executable evaluation and at `ℝ` where the source takes a square
root).  Python dictionaries holding asset / sale metadata are modelled as
records of optional fields, with getters applying the same defaults as the
source's `dict.get(key, default)` calls.
-/

namespace Valuation

/-- Metadata dictionary for an asset or a historical sale, as read by the
valuation service.  Each field is `none` when the corresponding key is
missing from the Python dict. -/
structure Meta (α : Type) where
  category : Option String := none
  creator : Option String := none
  quality_score : Option α := none
  rarity : Option α := none
  timestamp : Option α := none
  price : Option α := none
deriving DecidableEq

/-- `metadata.get("quality_score", 0.5)`. -/
def Meta.qualityD {α : Type} [LinearOrderedField α] (m : Meta α) : α :=
  m.quality_score.getD (1/2)

/-- `metadata.get("rarity", 0.5)`. -/
def Meta.rarityD {α : Type} [LinearOrderedField α] (m : Meta α) : α :=
  m.rarity.getD (1/2)

/-- `metadata.get("timestamp", 0)`. -/
def Meta.timestampD {α : Type} [LinearOrderedField α] (m : Meta α) : α :=
  m.timestamp.getD 0

/-- `metadata.get("price", 0)`. -/
def Meta.priceD {α : Type} [LinearOrderedField α] (m : Meta α) : α :=
  m.price.getD 0

/-- A sale record as manipulated by `_find_enhanced_comparable_sales`: the
original metadata keys plus the two keys the ranker may add
(`similarity_score` and `price_per_quality`), `none` while absent. -/
structure SaleRec (α : Type) where
  meta : Meta α
  similarity_score : Option α := none
  price_per_quality : Option α := none
deriving DecidableEq

instance {α : Type} : Inhabited (Meta α) := ⟨{}⟩

instance {α : Type} : Inhabited (SaleRec α) := ⟨{ meta := {} }⟩

section Defs

variable {α : Type} [LinearOrderedField α]

/-- `_calculate_similarity_score(target_metadata, sale_metadata)`, with the
wall clock `time.time()` passed explicitly as `now`.  Follows the source
line by line: indicator terms for category and creator match, similarity
terms for quality and rarity, a time-decay term, and a final `min(score, 1.0)`. -/
def calculate_similarity_score (target sale : Meta α) (now : α) : α :=
  let score : α := 0
  let score := if target.category = sale.category then score + 4/10 else score
  let score := if target.creator = sale.creator then score + 2/10 else score
  let quality_similarity := 1 - |target.qualityD - sale.qualityD|
  let score := score + quality_similarity * (2/10)
  let rarity_similarity := 1 - |target.rarityD - sale.rarityD|
  let score := score + rarity_similarity * (1/10)
  let days_ago := (now - sale.timestampD) / (24 * 3600)
  let time_relevance := max 0 (1 - days_ago / 365)
  let score := score + time_relevance * (1/10)
  min score 1

/-- The price list built inside `_validate_market_bounds`:
`[sale.get("price", 0) for sale in comparable_sales if sale.get("price", 0) > 0]`. -/
def pricesOf (sales : List (SaleRec α)) : List α :=
  (sales.map (fun s => s.meta.priceD)).filter (fun p => decide (0 < p))

/-- `np.median`: sort ascending; middle element for odd length, mean of the
two middle elements for even length.  Only ever applied to nonempty lists
(the source guards with `if not prices`). -/
def median (l : List α) : α :=
  let s := l.insertionSort (· ≤ ·)
  let n := l.length
  if n % 2 = 1 then s.getD (n / 2) 0
  else (s.getD (n / 2 - 1) 0 + s.getD (n / 2) 0) / 2

/-- `_validate_market_bounds(estimated_value, metadata, comparable_sales)`.
Returns the estimate unchanged when there are no comparables or no positive
prices; otherwise pulls estimates lying outside `[0.5*min, 2*max]` halfway
toward the median.  (`metadata` is unused by the source body.) -/
def validate_market_bounds (estimated_value : α) (comparable_sales : List (SaleRec α)) : α :=
  match comparable_sales with
  | [] => estimated_value
  | _ :: _ =>
    match pricesOf comparable_sales with
    | [] => estimated_value
    | p :: ps =>
      let min_price := ps.foldl min p
      let max_price := ps.foldl max p
      let median_price := median (p :: ps)
      let lower_bound := min_price * (5/10)
      let upper_bound := max_price * 2
      if estimated_value < lower_bound then (estimated_value + median_price) / 2
      else if upper_bound < estimated_value then (estimated_value + median_price) / 2
      else estimated_value

/-- Sort key used by `_find_enhanced_comparable_sales`:
`key=lambda x: (x["similarity_score"], x.get("timestamp", 0))`. -/
def rankKey (r : SaleRec α) : α × α :=
  (r.similarity_score.getD 0, r.meta.timestampD)

/-- Lexicographic strict order on sort keys, as Python compares tuples. -/
def keyLt (x y : α × α) : Prop :=
  x.1 < y.1 ∨ (x.1 = y.1 ∧ x.2 < y.2)

instance keyLt.decidable (x y : α × α) : Decidable (keyLt x y) := by
  unfold keyLt; infer_instance

/-- The enriched copy built for a selected sale: `sale.copy()` followed by
setting `similarity_score` and
`price_per_quality = sale.get("price", 0) / max(sale.get("quality_score", 0.5), 0.1)`. -/
def enrich (sale : SaleRec α) (score : α) : SaleRec α :=
  { sale with
    similarity_score := some score
    price_per_quality := some (sale.meta.priceD / max sale.meta.qualityD (1/10)) }

/-- `_find_enhanced_comparable_sales(metadata, historical_data, market_data)`
restricted to the caller-supplied `historical_data` branch: score every sale,
keep those with similarity above `0.3` (enriched copies), stable-sort by
`(similarity_score, timestamp)` descending, return the first 10. -/
def find_enhanced_comparable_sales (target : Meta α) (historical_data : List (SaleRec α))
    (now : α) : List (SaleRec α) :=
  let comparable_with_scores := historical_data.filterMap (fun sale =>
    let score := calculate_similarity_score target sale.meta now
    if 3/10 < score then some (enrich sale score) else none)
  (comparable_with_scores.insertionSort (fun a b => ¬ keyLt (rankKey a) (rankKey b))).take 10

/-- `_rule_based_valuation(features)`: base value 1000 scaled by a
feature-weighted multiplier, boosted by 1.5 when slot 4 exceeds 0.5, and
clamped to `[100, 1_000_000]`. -/
def rule_based_valuation (features : List α) : α :=
  let base_value : α := 1000
  let multiplier : α := 1
    + features.getD 0 0 * 2
    + features.getD 1 0 * (15/10)
    + features.getD 2 0 * 1
    + features.getD 3 0 * (5/10)
  let multiplier := if 5/10 < features.getD 4 0 then multiplier * (15/10) else multiplier
  let estimated_value := base_value * multiplier
  max 100 (min estimated_value 1000000)

/-- The fallback branch of `_run_neural_model` taken when
`self.neural_model is None`: rule-based value with `value * 0.3` as the
reported uncertainty. -/
def run_neural_model_fallback (features : List α) : α × α :=
  let value := rule_based_valuation features
  (value, value * (3/10))

/-- The clamp applied to the neural value in the loaded-model branch of
`_run_neural_model`: `max(100, min(estimated_value, 1000000))`. -/
def clamp_value (v : α) : α := max 100 (min v 1000000)

/-- The clamp applied to the neural uncertainty in the loaded-model branch
of `_run_neural_model`: `max(0.01, min(model_uncertainty, 0.8))`. -/
def clamp_uncertainty (u : α) : α := max (1/100) (min u (8/10))

/-- The per-model base weight chosen inside `_combine_predictions` for an
ensemble entry: 0.3 for the random forest, 0.2 for gradient boosting, 0.1
otherwise. -/
def ensembleWeight (model_name : String) : α :=
  if model_name = "random_forest" then 3/10
  else if model_name = "gradient_boosting" then 2/10
  else 1/10

/-- `all_predictions` inside `_combine_predictions`: the neural value
followed by the ensemble values in insertion order. -/
def all_predictions (neural_value : α) (ensemble : List (String × α)) : List α :=
  neural_value :: ensemble.map Prod.snd

/-- `weights` inside `_combine_predictions` before normalization: 0.5 for
the neural network, then the per-model base weights. -/
def raw_weights (ensemble : List (String × α)) : List α :=
  (5/10 : α) :: ensemble.map (fun p => ensembleWeight p.1)

/-- `weights = [w / total_weight for w in weights]`. -/
def normalized_weights (ensemble : List (String × α)) : List α :=
  (raw_weights ensemble).map (· / (raw_weights (α := α) ensemble).sum)

/-- `combined_value = sum(pred * weight for pred, weight in zip(...))`. -/
def combine_value (neural_value : α) (ensemble : List (String × α)) : α :=
  (List.zipWith (· * ·) (all_predictions neural_value ensemble)
    (normalized_weights ensemble)).sum

/-- `np.var` with its default `ddof=0`: mean of squared deviations. -/
def list_variance (l : List α) : α :=
  let n : α := l.length
  let mean := l.sum / n
  (l.map (fun x => (x - mean) ^ 2)).sum / n

/-- `prediction_variance = np.var(all_predictions) if len(all_predictions) > 1 else 0`. -/
def prediction_variance (neural_value : α) (ensemble : List (String × α)) : α :=
  if 1 < (all_predictions neural_value ensemble).length then
    list_variance (all_predictions neural_value ensemble)
  else 0

/-- The radicand of `combined_uncertainty = np.sqrt(neural_uncertainty**2 +
prediction_variance)`; the source's combined uncertainty is the real square
root of this quantity. -/
def combined_uncertainty_sq (neural_uncertainty neural_value : α)
    (ensemble : List (String × α)) : α :=
  neural_uncertainty ^ 2 + prediction_variance neural_value ensemble

/-- `feature_uncertainty = 0.3 - (feature_quality * 0.2)` from
`_calculate_enhanced_confidence_interval`. -/
def feature_uncertainty (feature_quality : α) : α :=
  3/10 - feature_quality * (2/10)

/-- `volatility_uncertainty = market_volatility * 0.5`. -/
def volatility_uncertainty (market_volatility : α) : α :=
  market_volatility * (5/10)

/-- `data_uncertainty = (1 - data_completeness) * 0.2`. -/
def data_uncertainty (data_completeness : α) : α :=
  (1 - data_completeness) * (2/10)

/-- `accuracy_uncertainty = (1 - historical_accuracy) * 0.3`. -/
def accuracy_uncertainty (historical_accuracy : α) : α :=
  (1 - historical_accuracy) * (3/10)

/-- The radicand of `total_uncertainty = np.sqrt(model_std**2 + ... +
accuracy_uncertainty**2)`; the source's total uncertainty is the real
square root of this quantity. -/
def total_uncertainty_sq (model_std feature_quality market_volatility
    data_completeness historical_accuracy : α) : α :=
  model_std ^ 2
    + feature_uncertainty feature_quality ^ 2
    + volatility_uncertainty market_volatility ^ 2
    + data_uncertainty data_completeness ^ 2
    + accuracy_uncertainty historical_accuracy ^ 2

/-- Python's `round(x, 2)` on exact values: round to a multiple of 1/100,
ties to the even multiple. -/
def round2 [FloorRing α] (x : α) : α :=
  let y := x * 100
  let f : ℤ := ⌊y⌋
  let r := y - f
  if r < 1/2 then (f : α) / 100
  else if 1/2 < r then ((f : α) + 1) / 100
  else if f % 2 = 0 then (f : α) / 100
  else ((f : α) + 1) / 100

/-- The tail of `_calculate_enhanced_confidence_interval` as a function of
the estimate and the (already square-rooted) total uncertainty:
`margin = estimated_value * total_uncertainty * 1.96`,
`lower = max(estimated_value - margin, estimated_value * 0.3)`,
`upper = min(estimated_value + margin, estimated_value * 3.0)`, both
rounded to 2 decimals. -/
def confidence_interval_from [FloorRing α] (estimated_value total_uncertainty : α) : α × α :=
  let confidence_multiplier : α := 196/100
  let margin := estimated_value * total_uncertainty * confidence_multiplier
  let lower_bound := max (estimated_value - margin) (estimated_value * (3/10))
  let upper_bound := min (estimated_value + margin) (estimated_value * 3)
  (round2 lower_bound, round2 upper_bound)

/-- `dict.get(key, default)` on a string-keyed numeric dict modelled as an
association list. -/
def dictGetD (d : List (String × α)) (key : String) (dflt : α) : α :=
  ((d.find? (fun p => p.1 = key)).map Prod.snd).getD dflt

/-- The numeric entries of `self.model_metrics` as set by
`ValuationService.__init__` (the non-numeric `last_updated: None` field is
irrelevant to the claims): `{"mae": 0.0, "r2_score": 0.0,
"prediction_count": 0}`. -/
def initial_model_metrics : List (String × α) :=
  [("mae", 0), ("r2_score", 0), ("prediction_count", 0)]

/-- `historical_accuracy = self.model_metrics.get("r2_score", 0.7)` from
`_calculate_enhanced_confidence_interval`. -/
def historical_accuracy (model_metrics : List (String × α)) : α :=
  dictGetD model_metrics "r2_score" (7/10)

/-- One iteration of the `for sale in historical_data` loop of
`_find_enhanced_comparable_sales`, on an explicit store of sale records:
the loop reads the record at address `addr`; when its similarity exceeds
0.3 it allocates an enriched copy (`sale.copy()` plus the two added keys)
at a fresh address and selects that copy.  The original record is never
written. -/
def find_comparables_step (target : Meta α) (now : α) :
    List (SaleRec α) × List Nat → Nat → List (SaleRec α) × List Nat :=
  fun acc addr =>
    let store := acc.1
    let selected := acc.2
    let sale := store.getD addr default
    let score := calculate_similarity_score target sale.meta now
    if 3/10 < score then (store ++ [enrich sale score], selected ++ [store.length])
    else (store, selected)

/-- Heap-level embedding of `_find_enhanced_comparable_sales` over a store
of sale records addressed by the caller-supplied `historical_data` list of
references: returns the store after the call together with the (ranked,
truncated) addresses of the selected enriched copies. -/
def find_enhanced_comparable_sales_heap (target : Meta α) (now : α)
    (store : List (SaleRec α)) (addrs : List Nat) : List (SaleRec α) × List Nat :=
  let out := addrs.foldl (find_comparables_step target now) (store, [])
  let keyAt := fun i => rankKey (out.1.getD i default)
  (out.1, (out.2.insertionSort (fun i j => ¬ keyLt (keyAt i) (keyAt j))).take 10)

end Defs

section SpecSide

variable {α : Type} [LinearOrderedField α]

/-- The similarity formula as the spec states it (`§4.5` / claim C7):
`0.4·[category match] + 0.2·[creator match] + 0.2·(1−|Δquality|) +
0.1·(1−|Δrarity|) + 0.1·max(0, 1 − days_ago/365)`, clamped to `[0, 1]`.
This definition follows the spec's words and is compared against
`calculate_similarity_score`, which is translated from the source. -/
def spec_similarity_formula (target sale : Meta α) (now : α) : α :=
  let s : α :=
    (if target.category = sale.category then 4/10 else 0)
    + (if target.creator = sale.creator then 2/10 else 0)
    + (1 - |target.qualityD - sale.qualityD|) * (2/10)
    + (1 - |target.rarityD - sale.rarityD|) * (1/10)
    + max 0 (1 - ((now - sale.timestampD) / (24 * 3600)) / 365) * (1/10)
  max 0 (min 1 s)

end SpecSide

section Lemmas

variable {α : Type} [LinearOrderedField α]

lemma round2_le (x : α) [FloorRing α] : round2 x ≤ x + 1/100 := by
  have h1 : ((⌊x * 100⌋ : ℤ) : α) ≤ x * 100 := Int.floor_le _
  have h2 : x * 100 < (⌊x * 100⌋ : ℤ) + 1 := Int.lt_floor_add_one _
  unfold round2
  dsimp only
  split_ifs <;> linarith

lemma le_round2 (x : α) [FloorRing α] : x - 1/100 ≤ round2 x := by
  have h1 : ((⌊x * 100⌋ : ℤ) : α) ≤ x * 100 := Int.floor_le _
  have h2 : x * 100 < (⌊x * 100⌋ : ℤ) + 1 := Int.lt_floor_add_one _
  unfold round2
  dsimp only
  split_ifs <;> linarith

lemma list_sum_map_div (l : List α) (c : α) : (l.map (· / c)).sum = l.sum / c := by
  induction l with
  | nil => simp
  | cons a t ih => simp [ih, add_div]

lemma zipWith_mul_sum_le (M : α) :
    ∀ ps ws : List α, ps.length = ws.length → (∀ w ∈ ws, 0 ≤ w) → (∀ p ∈ ps, p ≤ M) →
      (List.zipWith (· * ·) ps ws).sum ≤ M * ws.sum := by
  intro ps
  induction ps with
  | nil =>
    intro ws hlen _ _
    have : ws = [] := by simpa using (List.length_eq_zero.mp hlen.symm)
    simp [this]
  | cons p pt ih =>
    intro ws hlen hw hp
    cases ws with
    | nil => simp at hlen
    | cons w wt =>
      have hlen' : pt.length = wt.length := by simpa using hlen
      have h1 : p * w ≤ M * w :=
        mul_le_mul_of_nonneg_right (hp p (by simp)) (hw w (by simp))
      have h2 : (List.zipWith (· * ·) pt wt).sum ≤ M * wt.sum :=
        ih wt hlen' (fun x hx => hw x (by simp [hx])) (fun x hx => hp x (by simp [hx]))
      simp only [List.zipWith_cons_cons, List.sum_cons]
      calc p * w + (List.zipWith (· * ·) pt wt).sum ≤ M * w + M * wt.sum := by linarith
      _ = M * (w + wt.sum) := by ring

lemma le_zipWith_mul_sum (m : α) :
    ∀ ps ws : List α, ps.length = ws.length → (∀ w ∈ ws, 0 ≤ w) → (∀ p ∈ ps, m ≤ p) →
      m * ws.sum ≤ (List.zipWith (· * ·) ps ws).sum := by
  intro ps
  induction ps with
  | nil =>
    intro ws hlen _ _
    have : ws = [] := by simpa using (List.length_eq_zero.mp hlen.symm)
    simp [this]
  | cons p pt ih =>
    intro ws hlen hw hp
    cases ws with
    | nil => simp at hlen
    | cons w wt =>
      have hlen' : pt.length = wt.length := by simpa using hlen
      have h1 : m * w ≤ p * w :=
        mul_le_mul_of_nonneg_right (hp p (by simp)) (hw w (by simp))
      have h2 : m * wt.sum ≤ (List.zipWith (· * ·) pt wt).sum :=
        ih wt hlen' (fun x hx => hw x (by simp [hx])) (fun x hx => hp x (by simp [hx]))
      simp only [List.zipWith_cons_cons, List.sum_cons]
      calc m * (w + wt.sum) = m * w + m * wt.sum := by ring
      _ ≤ p * w + (List.zipWith (· * ·) pt wt).sum := by linarith

lemma zipWith_mul_sum_const (c : α) :
    ∀ ps ws : List α, ps.length = ws.length → (∀ p ∈ ps, p = c) →
      (List.zipWith (· * ·) ps ws).sum = c * ws.sum := by
  intro ps
  induction ps with
  | nil =>
    intro ws hlen _
    have : ws = [] := by simpa using (List.length_eq_zero.mp hlen.symm)
    simp [this]
  | cons p pt ih =>
    intro ws hlen hp
    cases ws with
    | nil => simp at hlen
    | cons w wt =>
      have hlen' : pt.length = wt.length := by simpa using hlen
      have h1 : p = c := hp p (by simp)
      have h2 : (List.zipWith (· * ·) pt wt).sum = c * wt.sum :=
        ih wt hlen' (fun x hx => hp x (by simp [hx]))
      simp only [List.zipWith_cons_cons, List.sum_cons, h1, h2]
      ring

lemma list_foldl_min_le_init : ∀ (l : List α) (a : α), l.foldl min a ≤ a := by
  intro l
  induction l with
  | nil => intro a; exact le_refl a
  | cons x t ih =>
    intro a
    calc (x :: t).foldl min a = t.foldl min (min a x) := rfl
    _ ≤ min a x := ih (min a x)
    _ ≤ a := min_le_left a x

lemma list_foldl_min_le_mem : ∀ (l : List α) (a x : α), x ∈ l → l.foldl min a ≤ x := by
  intro l
  induction l with
  | nil => intro a x hx; simp at hx
  | cons y t ih =>
    intro a x hx
    rcases List.mem_cons.mp hx with h | h
    · calc (y :: t).foldl min a = t.foldl min (min a y) := rfl
      _ ≤ min a y := list_foldl_min_le_init t (min a y)
      _ ≤ y := min_le_right a y
      _ = x := h.symm
    · exact ih (min a y) x h

lemma init_le_list_foldl_max : ∀ (l : List α) (a : α), a ≤ l.foldl max a := by
  intro l
  induction l with
  | nil => intro a; exact le_refl a
  | cons x t ih =>
    intro a
    calc a ≤ max a x := le_max_left a x
    _ ≤ t.foldl max (max a x) := ih (max a x)
    _ = (x :: t).foldl max a := rfl

lemma mem_le_list_foldl_max : ∀ (l : List α) (a x : α), x ∈ l → x ≤ l.foldl max a := by
  intro l
  induction l with
  | nil => intro a x hx; simp at hx
  | cons y t ih =>
    intro a x hx
    rcases List.mem_cons.mp hx with h | h
    · calc x = y := h
      _ ≤ max a y := le_max_right a y
      _ ≤ t.foldl max (max a y) := init_le_list_foldl_max t (max a y)
      _ = (y :: t).foldl max a := rfl
    · exact ih (max a y) x h

lemma ensembleWeight_nonneg (s : String) : (0 : α) ≤ ensembleWeight s := by
  unfold ensembleWeight
  split_ifs <;> norm_num

lemma raw_weights_nonneg (ensemble : List (String × α)) :
    ∀ w ∈ raw_weights ensemble, 0 ≤ w := by
  intro w hw
  rcases List.mem_cons.mp hw with h | h
  · rw [h]; norm_num
  · rcases List.mem_map.mp h with ⟨p, _, hp⟩
    rw [← hp]; exact ensembleWeight_nonneg p.1

lemma raw_weights_sum_pos (ensemble : List (String × α)) :
    0 < (raw_weights ensemble).sum := by
  have htail : 0 ≤ (ensemble.map (fun p => ensembleWeight (α := α) p.1)).sum :=
    List.sum_nonneg (by
      intro w hw
      rcases List.mem_map.mp hw with ⟨p, _, hp⟩
      rw [← hp]; exact ensembleWeight_nonneg p.1)
  have : (raw_weights ensemble).sum
      = 5/10 + (ensemble.map (fun p => ensembleWeight (α := α) p.1)).sum := by
    simp [raw_weights]
  rw [this]
  linarith

lemma normalized_weights_sum_one (ensemble : List (String × α)) :
    (normalized_weights ensemble).sum = 1 := by
  unfold normalized_weights
  rw [list_sum_map_div]
  exact div_self (ne_of_gt (raw_weights_sum_pos ensemble))

lemma normalized_weights_nonneg (ensemble : List (String × α)) :
    ∀ w ∈ normalized_weights ensemble, 0 ≤ w := by
  intro w hw
  rcases List.mem_map.mp hw with ⟨x, hx, hxe⟩
  rw [← hxe]
  exact div_nonneg (raw_weights_nonneg ensemble x hx)
    (le_of_lt (raw_weights_sum_pos ensemble))

lemma predictions_weights_length (neural_value : α) (ensemble : List (String × α)) :
    (all_predictions neural_value ensemble).length = (normalized_weights ensemble).length := by
  simp [all_predictions, normalized_weights, raw_weights]

lemma list_variance_const (l : List α) (c : α) (hl : l ≠ []) (h : ∀ x ∈ l, x = c) :
    list_variance l = 0 := by
  have hn : (l.length : α) ≠ 0 := by
    simpa using fun hz => hl (List.length_eq_zero.mp hz)
  have hsum : l.sum = (l.length : α) * c := by
    rw [List.sum_eq_card_nsmul l c h, nsmul_eq_mul]
  have hmean : l.sum / (l.length : α) = c := by
    rw [hsum, mul_comm, mul_div_assoc, div_self hn, mul_one]
  have hzero : (l.map fun x => (x - c) ^ 2).sum = 0 := by
    apply List.sum_eq_zero
    intro y hy
    rcases List.mem_map.mp hy with ⟨x, hx, hxe⟩
    rw [← hxe, h x hx, sub_self]
    ring
  unfold list_variance
  dsimp only
  simp only [hmean]
  rw [hzero, zero_div]

/-- The rounded confidence interval brackets the unadjusted estimate as soon
as the estimate is at least 100 and the total uncertainty at least 0.01
(the source clamps the neural uncertainty, hence the model-uncertainty term,
to at least 0.01). -/
lemma confidence_interval_brackets [FloorRing α] (v tu : α)
    (hv : 100 ≤ v) (htu : 1/100 ≤ tu) :
    (confidence_interval_from v tu).1 ≤ v ∧ v ≤ (confidence_interval_from v tu).2 := by
  have hv0 : (0 : α) < v := lt_of_lt_of_le (by norm_num) hv
  have hvtu : 1 ≤ v * tu := by
    calc (1 : α) = 100 * (1/100) := by norm_num
    _ ≤ v * tu := mul_le_mul hv htu (by norm_num) (le_of_lt hv0)
  have hmargin : 196/100 ≤ v * tu * (196/100) := by nlinarith
  constructor
  · have hcap : v * (3/10) ≤ v - 196/100 := by nlinarith
    have hlow : max (v - v * tu * (196/100)) (v * (3/10)) ≤ v - 196/100 :=
      max_le (by linarith) hcap
    calc (confidence_interval_from v tu).1
        = round2 (max (v - v * tu * (196/100)) (v * (3/10))) := rfl
    _ ≤ max (v - v * tu * (196/100)) (v * (3/10)) + 1/100 := round2_le _
    _ ≤ (v - 196/100) + 1/100 := by linarith
    _ ≤ v := by linarith
  · have hcap : v + 196/100 ≤ v * 3 := by nlinarith
    have hupp : v + 196/100 ≤ min (v + v * tu * (196/100)) (v * 3) :=
      le_min (by linarith) hcap
    calc v ≤ (v + 196/100) - 1/100 := by linarith
    _ ≤ min (v + v * tu * (196/100)) (v * 3) - 1/100 := by linarith
    _ ≤ round2 (min (v + v * tu * (196/100)) (v * 3)) := le_round2 _
    _ = (confidence_interval_from v tu).2 := rfl

end Lemmas

section Claims

/-- C3, counterexample.  The claim says calibrating twice yields the same
result as calibrating once.  With comparables `[{price: 40}]` (bounds
`[20, 80]`, median 40) an estimate of 1000 calibrates to `(1000+40)/2 = 520`,
which is still out of bounds, so a second calibration gives `(520+40)/2 =
280 ≠ 520`: `_validate_market_bounds` is not idempotent. -/
theorem C3_counterexample :
    validate_market_bounds (validate_market_bounds (1000 : ℚ) [{ meta := { price := some 40 } }])
        [{ meta := { price := some 40 } }]
      ≠ validate_market_bounds (1000 : ℚ) [{ meta := { price := some 40 } }] := by
  norm_num [validate_market_bounds, pricesOf, median, Meta.priceD, List.insertionSort,
    List.orderedInsert]

/-- C3, amended.  The half of the claim that holds: calibrating a value that
is already inside the soft bounds `[0.5*min, 2*max]` of the comparables'
positive prices returns it unchanged (so re-applying calibration to such a
value is a no-op); but calibration applied twice to an out-of-bound value
is not in general the same as applying it once. -/
theorem C3_amended {α : Type} [LinearOrderedField α] (v : α) (sales : List (SaleRec α))
    (p : α) (ps : List α) (hp : pricesOf sales = p :: ps)
    (hlow : ps.foldl min p * (5/10) ≤ v) (hupp : v ≤ ps.foldl max p * 2) :
    validate_market_bounds v sales = v := by
  cases sales with
  | nil => simp [pricesOf] at hp
  | cons s t =>
    unfold validate_market_bounds
    rw [hp]
    simp only []
    rw [if_neg (not_lt.mpr hlow), if_neg (not_lt.mpr hupp)]

/-- C3, witness for the amended theorem: a single comparable of price 40
gives bounds `[20, 80]`; the in-bound estimate 50 is returned unchanged. -/
theorem C3_witness :
    pricesOf [({ meta := { price := some 40 } } : SaleRec ℚ)] = [40] ∧
    ([] : List ℚ).foldl min 40 * (5/10) ≤ (50 : ℚ) ∧
    (50 : ℚ) ≤ ([] : List ℚ).foldl max 40 * 2 ∧
    validate_market_bounds (50 : ℚ) [{ meta := { price := some 40 } }] = 50 :=
  ⟨by norm_num [pricesOf, Meta.priceD], by norm_num, by norm_num,
    C3_amended 50 _ 40 [] (by norm_num [pricesOf, Meta.priceD]) (by norm_num) (by norm_num)⟩

/-- C4, counterexample.  On the all-default feature vector
`[0.5, 0.5, 0.5, 0.5, 0, ...]` the rule-based fallback of `_run_neural_model`
returns value 3500 and uncertainty `3500 * 0.3 = 1050`, which lies far
outside the claimed `[0.01, 0.8]` uncertainty range (the clamp is applied
only in the loaded-model branch). -/
theorem C4_counterexample :
    ¬ (1/100 ≤ (run_neural_model_fallback ([1/2, 1/2, 1/2, 1/2, 0] : List ℚ)).2 ∧
        (run_neural_model_fallback ([1/2, 1/2, 1/2, 1/2, 0] : List ℚ)).2 ≤ 8/10) := by
  norm_num [run_neural_model_fallback, rule_based_valuation]

/-- C4, amended.  The loaded-model branch of `_run_neural_model` clamps the
value to `[100, 1_000_000]` and the uncertainty to `[0.01, 0.8]`, and the
rule-based fallback clamps its value to `[100, 1_000_000]`; but the
fallback's uncertainty is `0.3 * value` — not value-normalized — and hence
lies in `[30, 300_000]`, outside the claimed `[0.01, 0.8]`. -/
theorem C4_amended {α : Type} [LinearOrderedField α] (features : List α) (v u : α) :
    100 ≤ (run_neural_model_fallback features).1 ∧
    (run_neural_model_fallback features).1 ≤ 1000000 ∧
    (run_neural_model_fallback features).2 = (run_neural_model_fallback features).1 * (3/10) ∧
    30 ≤ (run_neural_model_fallback features).2 ∧
    (run_neural_model_fallback features).2 ≤ 300000 ∧
    100 ≤ clamp_value v ∧ clamp_value v ≤ 1000000 ∧
    1/100 ≤ clamp_uncertainty u ∧ clamp_uncertainty u ≤ 8/10 := by
  have h1 : (100 : α) ≤ rule_based_valuation features := le_max_left _ _
  have h2 : rule_based_valuation features ≤ 1000000 :=
    max_le (by norm_num) (min_le_right _ _)
  have hfb : run_neural_model_fallback features
      = (rule_based_valuation features, rule_based_valuation features * (3/10)) := rfl
  rw [hfb]
  refine ⟨h1, h2, rfl, ?_, ?_, le_max_left _ _, max_le (by norm_num) (min_le_right _ _),
    le_max_left _ _, max_le (by norm_num) (min_le_right _ _)⟩
  · nlinarith
  · nlinarith

/-- C5, counterexample.  On a fresh `ValuationService`, `__init__` stores
`"r2_score": 0.0` in `model_metrics`, so the `.get("r2_score", 0.7)` default
of 0.7 is never used: the historical accuracy reads 0, not 0.7, and the
accuracy uncertainty is `0.3`, not the claimed `0.09`. -/
theorem C5_counterexample :
    historical_accuracy (initial_model_metrics (α := ℚ)) ≠ 7/10 ∧
    accuracy_uncertainty (historical_accuracy (initial_model_metrics (α := ℚ))) ≠ 9/100 := by
  have h : historical_accuracy (initial_model_metrics (α := ℚ)) = 0 := rfl
  rw [h]
  norm_num [accuracy_uncertainty]

/-- C5, amended.  `accuracy_uncertainty = 0.3 * (1 - historical_r2)` holds as
claimed, and `historical_r2` is read from `model_metrics` with nominal
fallback 0.7; but `__init__` presets `r2_score` to 0.0 (and nothing ever
updates it), so on a fresh service instance `historical_r2 = 0.0` and
`accuracy_uncertainty = 0.3`, not 0.09. -/
theorem C5_amended :
    (∀ r2 : ℚ, accuracy_uncertainty r2 = (3/10) * (1 - r2)) ∧
    historical_accuracy (initial_model_metrics (α := ℚ)) = 0 ∧
    accuracy_uncertainty (historical_accuracy (initial_model_metrics (α := ℚ))) = 3/10 := by
  refine ⟨fun r2 => by rw [accuracy_uncertainty]; ring, rfl, ?_⟩
  have h : historical_accuracy (initial_model_metrics (α := ℚ)) = 0 := rfl
  rw [h, accuracy_uncertainty]
  norm_num

/-- C9.  `_validate_market_bounds` only considers strictly positive prices
(every member of the filtered price list is positive), and when the
comparables list yields no positive price the estimate is returned
unchanged, so `min`, `max` and `np.median` are only ever reached with a
nonempty price list. -/
theorem C9_theorem {α : Type} [LinearOrderedField α] :
    (∀ sales : List (SaleRec α), ∀ p ∈ pricesOf sales, 0 < p) ∧
    (∀ (v : α) (sales : List (SaleRec α)),
      pricesOf sales = [] → validate_market_bounds v sales = v) := by
  constructor
  · intro sales p hp
    exact of_decide_eq_true (List.mem_filter.mp hp).2
  · intro v sales h
    cases sales with
    | nil => rfl
    | cons s t =>
      unfold validate_market_bounds
      rw [h]

/-- C9, witness: a positive price drawn from the filtered list is positive,
and a comparables list whose only sale has no positive price leaves the
estimate 77 unchanged. -/
theorem C9_witness :
    (0 : ℚ) < 5 ∧ validate_market_bounds (77 : ℚ) [{ meta := { price := some 0 } }] = 77 :=
  ⟨(C9_theorem (α := ℚ)).1 [{ meta := { price := some 5 } }] 5
      (by norm_num [pricesOf, Meta.priceD]),
    (C9_theorem (α := ℚ)).2 77 [{ meta := { price := some 0 } }]
      (by simp [pricesOf, Meta.priceD])⟩

/-- Shape lemma for the similarity score: the source's `min(score, 1.0)`
over the incrementally-built score coincides with the spec's clamp to
`[0, 1]` of the flat sum, as soon as the three non-indicator terms are
nonnegative. -/
lemma clamp_shape {α : Type} [LinearOrderedField α] (c1 c2 : Prop) [Decidable c1] [Decidable c2]
    (q r t : α) (hq : 0 ≤ q) (hr : 0 ≤ r) (ht : 0 ≤ t) :
    min ((if c2 then (if c1 then (0 : α) + 4/10 else 0) + 2/10
          else (if c1 then (0 : α) + 4/10 else 0)) + q * (2/10) + r * (1/10) + t * (1/10)) 1
      = max 0 (min 1 ((if c1 then (4 : α)/10 else 0) + (if c2 then (2 : α)/10 else 0)
          + q * (2/10) + r * (1/10) + t * (1/10))) := by
  have hS : (if c2 then (if c1 then (0 : α) + 4/10 else 0) + 2/10
        else (if c1 then (0 : α) + 4/10 else 0)) + q * (2/10) + r * (1/10) + t * (1/10)
      = (if c1 then (4 : α)/10 else 0) + (if c2 then (2 : α)/10 else 0)
        + q * (2/10) + r * (1/10) + t * (1/10) := by
    split_ifs <;> ring
  rw [hS, min_comm]
  symm
  apply max_eq_right
  apply le_min zero_le_one
  have i1 : (0 : α) ≤ if c1 then (4 : α)/10 else 0 := by split_ifs <;> norm_num
  have i2 : (0 : α) ≤ if c2 then (2 : α)/10 else 0 := by split_ifs <;> norm_num
  have m1 : (0 : α) ≤ q * (2/10) := mul_nonneg hq (by norm_num)
  have m2 : (0 : α) ≤ r * (1/10) := mul_nonneg hr (by norm_num)
  have m3 : (0 : α) ≤ t * (1/10) := mul_nonneg ht (by norm_num)
  linarith

/-- C6.  When every available estimator returns the same value `V` and the
neural estimator reports uncertainty `U ≥ 0`, `_combine_predictions` returns
combined value exactly `V` and combined uncertainty (the square root of
`combined_uncertainty_sq`) exactly `U`: the disagreement variance is 0 and
the renormalized weights sum to 1. -/
theorem C6_theorem (V U : ℝ) (ensemble : List (String × ℝ)) (hU : 0 ≤ U)
    (hall : ∀ p ∈ ensemble, p.2 = V) :
    combine_value V ensemble = V ∧
    Real.sqrt (combined_uncertainty_sq U V ensemble) = U ∧
    (normalized_weights ensemble).sum = 1 := by
  have hpred : ∀ p ∈ all_predictions V ensemble, p = V := by
    intro p hp
    rcases List.mem_cons.mp hp with h | h
    · exact h
    · rcases List.mem_map.mp h with ⟨q, hq, he⟩
      rw [← he]; exact hall q hq
  have hsum1 := normalized_weights_sum_one (α := ℝ) ensemble
  have hcv : combine_value V ensemble = V := by
    unfold combine_value
    rw [zipWith_mul_sum_const V _ _ (predictions_weights_length V ensemble) hpred, hsum1,
      mul_one]
  have hvar : prediction_variance V ensemble = 0 := by
    unfold prediction_variance
    split_ifs with h
    · exact list_variance_const _ V (by simp [all_predictions]) hpred
    · rfl
  refine ⟨hcv, ?_, hsum1⟩
  unfold combined_uncertainty_sq
  rw [hvar, add_zero, Real.sqrt_sq hU]

/-- C6, witness: neural value 500 with uncertainty 0.1 and both tree models
also predicting 500. -/
theorem C6_witness :
    combine_value (500 : ℝ) [("random_forest", 500), ("gradient_boosting", 500)] = 500 ∧
    Real.sqrt (combined_uncertainty_sq (1/10) (500 : ℝ)
      [("random_forest", 500), ("gradient_boosting", 500)]) = 1/10 ∧
    (normalized_weights (α := ℝ) [("random_forest", 500), ("gradient_boosting", 500)]).sum = 1 :=
  C6_theorem 500 (1/10) [("random_forest", 500), ("gradient_boosting", 500)]
    (by norm_num) (by simp)

/-- C7.  Under the documented `[0, 1]` ranges for quality and rarity scores,
`_calculate_similarity_score` computes exactly the spec's formula
`0.4*[category match] + 0.2*[creator match] + 0.2*(1-|dq|) + 0.1*(1-|dr|) +
0.1*max(0, 1 - days_ago/365)` clamped to `[0, 1]`; and it returns exactly 1
when the sale's category, creator, quality, rarity match the asset's and the
sale's timestamp equals the current time. -/
theorem C7_theorem {α : Type} [LinearOrderedField α] :
    (∀ (target sale : Meta α) (now : α),
        0 ≤ target.qualityD → target.qualityD ≤ 1 →
        0 ≤ sale.qualityD → sale.qualityD ≤ 1 →
        0 ≤ target.rarityD → target.rarityD ≤ 1 →
        0 ≤ sale.rarityD → sale.rarityD ≤ 1 →
        calculate_similarity_score target sale now = spec_similarity_formula target sale now) ∧
    (∀ (target sale : Meta α) (now : α),
        sale.category = target.category → sale.creator = target.creator →
        sale.qualityD = target.qualityD → sale.rarityD = target.rarityD →
        sale.timestampD = now →
        calculate_similarity_score target sale now = 1) := by
  constructor
  · intro target sale now hq0 hq1 hs0 hs1 hr0 hr1 hsr0 hsr1
    have habsq : |target.qualityD - sale.qualityD| ≤ 1 :=
      abs_le.mpr ⟨by linarith, by linarith⟩
    have habsr : |target.rarityD - sale.rarityD| ≤ 1 :=
      abs_le.mpr ⟨by linarith, by linarith⟩
    unfold calculate_similarity_score spec_similarity_formula
    dsimp only
    exact clamp_shape _ _ _ _ _ (by linarith) (by linarith) (le_max_left _ _)
  · intro target sale now hc hcr hq hr ht
    unfold calculate_similarity_score
    dsimp only
    rw [if_pos hc.symm, if_pos hcr.symm, hq, hr, ht]
    norm_num

/-- C7, witness: an exactly matching sale with in-range scores; both parts of
the theorem applied at it. -/
theorem C7_witness :
    calculate_similarity_score (α := ℚ)
        { category := some "music", creator := some "alice",
          quality_score := some (9/10), rarity := some (8/10) }
        { category := some "music", creator := some "alice",
          quality_score := some (9/10), rarity := some (8/10), timestamp := some 1000 }
        1000
      = spec_similarity_formula (α := ℚ)
          { category := some "music", creator := some "alice",
            quality_score := some (9/10), rarity := some (8/10) }
          { category := some "music", creator := some "alice",
            quality_score := some (9/10), rarity := some (8/10), timestamp := some 1000 }
          1000 ∧
    calculate_similarity_score (α := ℚ)
        { category := some "music", creator := some "alice",
          quality_score := some (9/10), rarity := some (8/10) }
        { category := some "music", creator := some "alice",
          quality_score := some (9/10), rarity := some (8/10), timestamp := some 1000 }
        1000 = 1 :=
  ⟨(C7_theorem).1 _ _ _ (by norm_num [Meta.qualityD]) (by norm_num [Meta.qualityD])
      (by norm_num [Meta.qualityD]) (by norm_num [Meta.qualityD])
      (by norm_num [Meta.rarityD]) (by norm_num [Meta.rarityD])
      (by norm_num [Meta.rarityD]) (by norm_num [Meta.rarityD]),
    (C7_theorem).2 _ _ _ rfl rfl rfl rfl rfl⟩

/-- C8.  The combined value from `_combine_predictions` always lies between
the minimum and the maximum of the individual prediction values, because the
weights are nonnegative and renormalized to sum to 1 before the weighted
average is taken. -/
theorem C8_theorem {α : Type} [LinearOrderedField α] (neural_value : α)
    (ensemble : List (String × α)) :
    (ensemble.map Prod.snd).foldl min neural_value ≤ combine_value neural_value ensemble ∧
    combine_value neural_value ensemble ≤ (ensemble.map Prod.snd).foldl max neural_value := by
  have hlen := predictions_weights_length neural_value ensemble
  have hw := normalized_weights_nonneg ensemble
  have hsum := normalized_weights_sum_one (α := α) ensemble
  constructor
  · have hmem : ∀ p ∈ all_predictions neural_value ensemble,
        (ensemble.map Prod.snd).foldl min neural_value ≤ p := by
      intro p hp
      rcases List.mem_cons.mp hp with h | h
      · rw [h]; exact list_foldl_min_le_init _ neural_value
      · exact list_foldl_min_le_mem _ neural_value p h
    have h := le_zipWith_mul_sum ((ensemble.map Prod.snd).foldl min neural_value)
      (all_predictions neural_value ensemble) (normalized_weights ensemble) hlen hw hmem
    rw [hsum, mul_one] at h
    exact h
  · have hmem : ∀ p ∈ all_predictions neural_value ensemble,
        p ≤ (ensemble.map Prod.snd).foldl max neural_value := by
      intro p hp
      rcases List.mem_cons.mp hp with h | h
      · rw [h]; exact init_le_list_foldl_max _ neural_value
      · exact mem_le_list_foldl_max _ neural_value p h
    have h := zipWith_mul_sum_le ((ensemble.map Prod.snd).foldl max neural_value)
      (all_predictions neural_value ensemble) (normalized_weights ensemble) hlen hw hmem
    rw [hsum, mul_one] at h
    exact h

/-- C1, counterexample.  `estimate_value` computes the confidence interval
(step 5) from the combined value *before* `_validate_market_bounds`
(step 8) adjusts it.  With combined value 100, any uncertainty inputs, and a
single matching comparable priced 10000, the calibrated value is
`(100 + 10000)/2 = 5050`, while the interval's upper bound is capped at
`3 * 100 = 300` (plus rounding): the returned interval does not bracket the
returned estimate. -/
theorem C1_counterexample :
    ¬ (((validate_market_bounds (100 : ℚ)
          (find_enhanced_comparable_sales { category := some "music" }
            [{ meta := { category := some "music", price := some 10000 } }] 0) : ℚ) : ℝ)
        ≤ (confidence_interval_from (100 : ℝ)
            (Real.sqrt (total_uncertainty_sq (1/5) (1/2) (1/5) (1/2) 0))).2) := by
  have hfinal : validate_market_bounds (100 : ℚ)
      (find_enhanced_comparable_sales { category := some "music" }
        [{ meta := { category := some "music", price := some 10000 } }] 0) = 5050 := by
    norm_num [validate_market_bounds, pricesOf, median, Meta.priceD, Meta.qualityD,
      Meta.rarityD, Meta.timestampD, find_enhanced_comparable_sales,
      calculate_similarity_score, enrich, List.insertionSort, List.orderedInsert,
      List.filterMap]
  rw [hfinal]
  have hub : (confidence_interval_from (100 : ℝ)
      (Real.sqrt (total_uncertainty_sq (1/5) (1/2) (1/5) (1/2) 0))).2 ≤ 100 * 3 + 1/100 := by
    calc (confidence_interval_from (100 : ℝ)
          (Real.sqrt (total_uncertainty_sq (1/5) (1/2) (1/5) (1/2) 0))).2
        = round2 (min (100 + 100 * Real.sqrt (total_uncertainty_sq (1/5) (1/2) (1/5) (1/2) 0)
            * (196/100)) (100 * 3)) := rfl
    _ ≤ min (100 + 100 * Real.sqrt (total_uncertainty_sq (1/5) (1/2) (1/5) (1/2) 0)
            * (196/100)) (100 * 3) + 1/100 := round2_le _
    _ ≤ 100 * 3 + 1/100 := by
        have := min_le_right (100 + 100 * Real.sqrt (total_uncertainty_sq
          (1/5) (1/2) (1/5) (1/2) 0) * (196/100)) ((100 : ℝ) * 3)
        linarith
  intro hcontra
  push_cast at hcontra
  linarith

/-- C1, amended.  The returned interval does bracket the returned estimate
whenever the market-bound step leaves the combined value unchanged (in
particular whenever there are no positive-priced comparables): with the
combined value at least 100 and the model-uncertainty term at least 0.01
(the source clamps it there), the rounded bounds
`[round2(max(v - margin, 0.3 v)), round2(min(v + margin, 3 v))]` satisfy
`lower ≤ v ≤ upper`.  When the market-bound step does adjust the value the
invariant can fail, because the interval is computed before the
adjustment. -/
theorem C1_amended (v model_std feature_quality market_volatility data_completeness r2 : ℝ)
    (sales : List (SaleRec ℝ)) (hv : 100 ≤ v) (hstd : 1/100 ≤ model_std)
    (hunchanged : validate_market_bounds v sales = v) :
    (confidence_interval_from v (Real.sqrt (total_uncertainty_sq model_std feature_quality
        market_volatility data_completeness r2))).1 ≤ validate_market_bounds v sales ∧
    validate_market_bounds v sales ≤ (confidence_interval_from v
      (Real.sqrt (total_uncertainty_sq model_std feature_quality
        market_volatility data_completeness r2))).2 := by
  rw [hunchanged]
  have hle : model_std ^ 2 ≤ total_uncertainty_sq model_std feature_quality
      market_volatility data_completeness r2 := by
    unfold total_uncertainty_sq
    nlinarith [sq_nonneg (feature_uncertainty feature_quality),
      sq_nonneg (volatility_uncertainty market_volatility),
      sq_nonneg (data_uncertainty data_completeness),
      sq_nonneg (accuracy_uncertainty r2)]
  have htu : 1/100 ≤ Real.sqrt (total_uncertainty_sq model_std feature_quality
      market_volatility data_completeness r2) := by
    calc (1 : ℝ)/100 ≤ model_std := hstd
    _ = |model_std| := (abs_of_nonneg (le_trans (by norm_num) hstd)).symm
    _ = Real.sqrt (model_std ^ 2) := (Real.sqrt_sq_eq_abs model_std).symm
    _ ≤ Real.sqrt (total_uncertainty_sq model_std feature_quality
        market_volatility data_completeness r2) := Real.sqrt_le_sqrt hle
  exact confidence_interval_brackets v _ hv htu

/-- C1, witness for the amended theorem: value 100, model uncertainty 0.2,
no comparables (so the market-bound step is the identity). -/
theorem C1_witness :
    (100 : ℝ) ≤ 100 ∧ (1/100 : ℝ) ≤ 1/5 ∧ validate_market_bounds (100 : ℝ) [] = 100 ∧
    ((confidence_interval_from (100 : ℝ) (Real.sqrt (total_uncertainty_sq (1/5) (1/2) (1/5)
        (1/2) 0))).1 ≤ validate_market_bounds (100 : ℝ) [] ∧
      validate_market_bounds (100 : ℝ) [] ≤ (confidence_interval_from (100 : ℝ)
        (Real.sqrt (total_uncertainty_sq (1/5) (1/2) (1/5) (1/2) 0))).2) :=
  ⟨le_refl _, by norm_num, rfl,
    C1_amended 100 (1/5) (1/2) (1/5) (1/2) 0 [] (by norm_num) (by norm_num) rfl⟩

/-- C2, counterexample.  With combined value 100 (attainable, and inside
`[100, 1_000_000]`) and a single matching comparable priced 10_000_000, the
market-bound adjustment returns `(100 + 10000000)/2 = 5_000_050`, outside
`[100, 1_000_000]`: the final estimate is not confined to the claimed
range. -/
theorem C2_counterexample :
    ¬ (100 ≤ validate_market_bounds (100 : ℚ)
          (find_enhanced_comparable_sales { category := some "music" }
            [{ meta := { category := some "music", price := some 10000000 } }] 0) ∧
        validate_market_bounds (100 : ℚ)
          (find_enhanced_comparable_sales { category := some "music" }
            [{ meta := { category := some "music", price := some 10000000 } }] 0)
          ≤ 1000000) := by
  have hfinal : validate_market_bounds (100 : ℚ)
      (find_enhanced_comparable_sales { category := some "music" }
        [{ meta := { category := some "music", price := some 10000000 } }] 0) = 5000050 := by
    norm_num [validate_market_bounds, pricesOf, median, Meta.priceD, Meta.qualityD,
      Meta.rarityD, Meta.timestampD, find_enhanced_comparable_sales,
      calculate_similarity_score, enrich, List.insertionSort, List.orderedInsert,
      List.filterMap]
  rw [hfinal]
  norm_num

/-- C2, amended.  The combined estimate is in `[100, 1_000_000]` whenever all
individual predictions are (they are clamped there), and the market-bound
step returns either that value unchanged or `(value + median)/2`; the
adjusted value can leave `[100, 1_000_000]` when the comparables' median
does. -/
theorem C2_amended {α : Type} [LinearOrderedField α] :
    (∀ (neural_value : α) (ensemble : List (String × α)),
        (∀ p ∈ all_predictions neural_value ensemble, 100 ≤ p ∧ p ≤ 1000000) →
        100 ≤ combine_value neural_value ensemble ∧
          combine_value neural_value ensemble ≤ 1000000) ∧
    (∀ (v : α) (sales : List (SaleRec α)),
        validate_market_bounds v sales = v ∨
        validate_market_bounds v sales = (v + median (pricesOf sales)) / 2) := by
  constructor
  · intro neural_value ensemble hall
    have hlen := predictions_weights_length neural_value ensemble
    have hw := normalized_weights_nonneg ensemble
    have hsum := normalized_weights_sum_one (α := α) ensemble
    constructor
    · have h := le_zipWith_mul_sum (100 : α) (all_predictions neural_value ensemble)
        (normalized_weights ensemble) hlen hw (fun p hp => (hall p hp).1)
      rw [hsum, mul_one] at h
      exact h
    · have h := zipWith_mul_sum_le (1000000 : α) (all_predictions neural_value ensemble)
        (normalized_weights ensemble) hlen hw (fun p hp => (hall p hp).2)
      rw [hsum, mul_one] at h
      exact h
  · intro v sales
    cases sales with
    | nil => exact Or.inl rfl
    | cons s t =>
      rcases heq : pricesOf (s :: t) with _ | ⟨p, ps⟩
      · left
        unfold validate_market_bounds
        rw [heq]
      · unfold validate_market_bounds
        rw [heq]
        simp only []
        split_ifs
        · exact Or.inr rfl
        · exact Or.inr rfl
        · exact Or.inl rfl

/-- C2, witness: predictions 500 and 200 (both in range) combine into the
claimed range, and a calibration call returns one of the two stated
forms. -/
theorem C2_witness :
    (100 ≤ combine_value (500 : ℚ) [("random_forest", 200)] ∧
      combine_value (500 : ℚ) [("random_forest", 200)] ≤ 1000000) ∧
    (validate_market_bounds (100 : ℚ) [{ meta := { price := some 40 } }] = 100 ∨
      validate_market_bounds (100 : ℚ) [{ meta := { price := some 40 } }]
        = (100 + median (pricesOf [({ meta := { price := some 40 } } : SaleRec ℚ)])) / 2) :=
  ⟨(C2_amended).1 500 [("random_forest", 200)] (by
      intro p hp
      simp [all_predictions] at hp
      rcases hp with rfl | rfl <;> norm_num),
    (C2_amended).2 100 [({ meta := { price := some 40 } } : SaleRec ℚ)]⟩

/-- One step of the comparable-ranking loop only ever appends to the store:
the enriched record is a fresh copy, the original records are never
written. -/
lemma step_extends {α : Type} [LinearOrderedField α] (target : Meta α) (now : α)
    (acc : List (SaleRec α) × List Nat) (a : Nat) :
    ∃ e, (find_comparables_step target now acc a).1 = acc.1 ++ e := by
  unfold find_comparables_step
  dsimp only
  split_ifs with h
  · exact ⟨[enrich (acc.1.getD a default)
      (calculate_similarity_score target (acc.1.getD a default).meta now)], rfl⟩
  · exact ⟨[], (List.append_nil _).symm⟩

/-- Folding the comparable-ranking loop over any address list only ever
appends to the store. -/
lemma foldl_extends {α : Type} [LinearOrderedField α] (target : Meta α) (now : α) :
    ∀ (addrs : List Nat) (acc : List (SaleRec α) × List Nat),
      ∃ ext, (addrs.foldl (find_comparables_step target now) acc).1 = acc.1 ++ ext := by
  intro addrs
  induction addrs with
  | nil => intro acc; exact ⟨[], (List.append_nil _).symm⟩
  | cons a as ih =>
    intro acc
    rw [List.foldl_cons]
    obtain ⟨e, he⟩ := step_extends target now acc a
    obtain ⟨ext, hx⟩ := ih (find_comparables_step target now acc a)
    exact ⟨e ++ ext, by rw [hx, he, List.append_assoc]⟩

/-- C10.  `_find_enhanced_comparable_sales` never mutates the caller's
`historical_data` list or its sale records: on the heap embedding, every
address that existed before the call still holds exactly the same record
after it (selected sales are `copy()`-ed before `similarity_score` and
`price_per_quality` are added, and the copies live at fresh addresses). -/
theorem C10_theorem {α : Type} [LinearOrderedField α] (target : Meta α) (now : α)
    (store : List (SaleRec α)) (addrs : List Nat) (i : Nat) (hi : i < store.length) :
    (find_enhanced_comparable_sales_heap target now store addrs).1[i]? = store[i]? := by
  obtain ⟨ext, hx⟩ := foldl_extends target now addrs (store, [])
  have h1 : (find_enhanced_comparable_sales_heap target now store addrs).1
      = (addrs.foldl (find_comparables_step target now) (store, [])).1 := rfl
  rw [h1, hx]
  exact List.getElem?_append_left hi

/-- C10, witness: a store holding one matching (hence selected and enriched)
sale record is unchanged at its original address after the call. -/
theorem C10_witness :
    0 < ([({ meta := { category := some "music", price := some 10000 } } : SaleRec ℚ)]).length ∧
    (find_enhanced_comparable_sales_heap (α := ℚ) { category := some "music" } 0
        [{ meta := { category := some "music", price := some 10000 } }] [0]).1[0]?
      = [({ meta := { category := some "music", price := some 10000 } } : SaleRec ℚ)][0]? :=
  ⟨by norm_num,
    C10_theorem ({ category := some "music" } : Meta ℚ) 0
      [{ meta := { category := some "music", price := some 10000 } }] [0] 0 (by norm_num)⟩

end Claims

end Valuation
